import Mathlib

/-!
Verification of the incremental analysis and caching pipeline of the
cvgorod-hub repository.  Shallow embedding of the relevant parts of
src/scripts/analyze_messages.py, src/services/intent_classifier.py and
src/services/expectations.py, followed by theorems about the embedded
definitions.  Wall-clock timestamps are modelled as naturals; every call
of datetime.utcnow() inside one run is modelled by a single per-run value.
-/

namespace CvgorodHub

/-! ## Backfill cursor scan (src/scripts/analyze_messages.py) -/

/-- A row of the messages table as seen by fetch_batch in
src/scripts/analyze_messages.py.  The joined values
COALESCE(ur.is_bot, FALSE), COALESCE(ur.is_staff, FALSE) and
COALESCE(u.is_manager, FALSE) are modelled as per-message booleans, and the
LEFT JOIN against message_analysis (the ma.message_id IS NULL test) as the
boolean field analyzed. -/
structure Msg where
  id : Nat
  ts : Nat
  text : Option String
  is_bot : Bool
  is_staff : Bool
  is_manager : Bool
  analyzed : Bool
  deriving DecidableEq, Repr

/-- The (timestamp, id) pair of a message, the sort key and watermark of the
scan loop in src/scripts/analyze_messages.py. -/
def Msg.key (m : Msg) : Nat × Nat := (m.ts, m.id)

/-- Strict lexicographic comparison of (timestamp, id) keys: the fetch filter
m.timestamp > $3 OR (m.timestamp = $3 AND m.id > $4). -/
def kLt (a b : Nat × Nat) : Prop := a.1 < b.1 ∨ (a.1 = b.1 ∧ a.2 < b.2)

instance kLtDec (a b : Nat × Nat) : Decidable (kLt a b) :=
  inferInstanceAs (Decidable (a.1 < b.1 ∨ (a.1 = b.1 ∧ a.2 < b.2)))

/-- Non-strict lexicographic comparison of keys, the ORDER BY
m.timestamp ASC, m.id ASC clause. -/
def kLe (a b : Nat × Nat) : Prop := a.1 < b.1 ∨ (a.1 = b.1 ∧ a.2 ≤ b.2)

instance kLeDec (a b : Nat × Nat) : Decidable (kLe a b) :=
  inferInstanceAs (Decidable (a.1 < b.1 ∨ (a.1 = b.1 ∧ a.2 ≤ b.2)))

/-- Row order used by the ORDER BY clause of fetch_batch. -/
def rowLe (a b : Msg) : Prop := kLe a.key b.key

instance rowLeDec : DecidableRel rowLe := fun a b => kLeDec a.key b.key

instance rowLeTotal : IsTotal Msg rowLe :=
  ⟨fun a b => by unfold rowLe kLe; omega⟩

instance rowLeTrans : IsTrans Msg rowLe :=
  ⟨fun a b c => by unfold rowLe kLe; omega⟩

/-- The WHERE clause of fetch_batch apart from the watermark: the [since,
until] window, non-empty text, no existing analysis row, and none of the
bot/staff/manager roles. -/
def qualifies (since untl : Nat) (m : Msg) : Bool :=
  decide (since ≤ m.ts) && decide (m.ts ≤ untl) &&
    (match m.text with
      | none => false
      | some s => s != "") &&
    !m.analyzed && !m.is_bot && !m.is_staff && !m.is_manager

/-- The rows of the table that the watermark w has not yet passed: the full
WHERE clause of fetch_batch (window and role filters plus the strict
(timestamp, id) watermark comparison). -/
def pending (db : List Msg) (since untl : Nat) (w : Nat × Nat) : List Msg :=
  db.filter (fun m => qualifies since untl m && decide (kLt w m.key))

/-- fetch_batch of src/scripts/analyze_messages.py: filter by window, text,
analysis absence, roles and watermark, order ascending by (timestamp, id),
and take at most limit rows. -/
def fetch_batch (db : List Msg) (since untl : Nat) (last_ts last_id : Nat)
    (limit : Nat) : List Msg :=
  (List.insertionSort rowLe (pending db since untl (last_ts, last_id))).take limit

/-- The while-loop of main() in src/scripts/analyze_messages.py, with explicit
fuel standing for the number of loop iterations still allowed: fetch a batch,
stop on an empty fetch, otherwise advance the watermark to the (timestamp, id)
of the last returned row and continue.  Returns none when the fuel runs out
before the loop reaches an empty fetch. -/
def scanGo (db : List Msg) (since untl limit : Nat) :
    Nat → Nat × Nat → Option (List Msg)
  | 0, _ => none
  | fuel + 1, w =>
    let batch := fetch_batch db since untl w.1 w.2 limit
    if hb : batch = [] then some []
    else
      match scanGo db since untl limit fuel (batch.getLast hb).key with
      | none => none
      | some rest => some (batch ++ rest)

/-- The whole backfill scan of main(): the watermark starts at
last_ts = since, last_id = 0. -/
def scanMessages (db : List Msg) (since untl limit fuel : Nat) :
    Option (List Msg) :=
  scanGo db since untl limit fuel (since, 0)

/-! ### Order lemmas for the key comparison -/

theorem kLt_irrefl (a : Nat × Nat) : ¬ kLt a a := by unfold kLt; omega

theorem kLt_trans {a b c : Nat × Nat} (h1 : kLt a b) (h2 : kLt b c) :
    kLt a c := by unfold kLt at *; omega

theorem kLt_asymm {a b : Nat × Nat} (h : kLt a b) : ¬ kLt b a := by
  unfold kLt at *; omega

theorem kLt_of_kLe_of_ne {a b : Nat × Nat} (h : kLe a b) (hne : a ≠ b) :
    kLt a b := by
  unfold kLe at h
  unfold kLt
  rcases a with ⟨a1, a2⟩
  rcases b with ⟨b1, b2⟩
  rcases h with h | ⟨heq, hle⟩
  · exact Or.inl h
  · subst heq
    simp only [ne_eq, Prod.mk.injEq, true_and] at hne
    exact Or.inr ⟨rfl, lt_of_le_of_ne hle hne⟩

/-! ### Helper lemmas for the scan proof -/

/-- In a list that is pairwise related by r, every member is either the last
element or related to it. -/
theorem pairwise_rel_getLast {α : Type _} {r : α → α → Prop} :
    ∀ {l : List α} (h : l ≠ []), l.Pairwise r → ∀ x ∈ l,
      x = l.getLast h ∨ r x (l.getLast h)
  | [], h, _, _, _ => absurd rfl h
  | [a], _, _, x, hx => by
      simp only [List.mem_singleton] at hx
      subst hx
      left
      rfl
  | a :: b :: t, _, hp, x, hx => by
      have hbt : (b :: t) ≠ [] := List.cons_ne_nil _ _
      have heq : (a :: b :: t).getLast (List.cons_ne_nil _ _) =
          (b :: t).getLast hbt := List.getLast_cons hbt
      rcases List.mem_cons.mp hx with rfl | hx2
      · right
        rw [heq]
        exact (List.pairwise_cons.mp hp).1 _ (List.getLast_mem hbt)
      · rw [heq]
        exact pairwise_rel_getLast hbt (List.pairwise_cons.mp hp).2 x hx2

/-- Members of pending satisfy the watermark comparison. -/
theorem kLt_of_mem_pending {db : List Msg} {since untl : Nat} {w : Nat × Nat}
    {m : Msg} (hm : m ∈ pending db since untl w) : kLt w m.key := by
  have := (List.mem_filter.mp hm).2
  have h2 := Bool.and_elim_right this
  exact of_decide_eq_true h2

/-- Members of pending are members of the table. -/
theorem mem_db_of_mem_pending {db : List Msg} {since untl : Nat}
    {w : Nat × Nat} {m : Msg} (hm : m ∈ pending db since untl w) : m ∈ db :=
  (List.mem_filter.mp hm).1

/-- If the table's message ids are distinct, so are the keys of any
sublist-of-the-table's rows. -/
theorem nodup_keys_of_sublist {db l : List Msg}
    (hids : (db.map Msg.id).Nodup) (hsub : l.Sublist db) :
    (l.map Msg.key).Nodup := by
  have hids2 : (l.map Msg.id).Nodup := (hids.sublist (hsub.map Msg.id))
  have hpw : l.Pairwise (fun a b => a.id ≠ b.id) :=
    List.pairwise_map.mp hids2
  have hpk : l.Pairwise (fun a b => a.key ≠ b.key) := by
    refine hpw.imp ?_
    intro a b hne hk
    exact hne (congrArg Prod.snd hk)
  exact List.pairwise_map.mpr hpk

/-- A sorted list with distinct keys is strictly sorted in the key order. -/
theorem pairwise_kLt_of_sorted_nodup {l : List Msg}
    (hs : l.Pairwise rowLe) (hnd : (l.map Msg.key).Nodup) :
    l.Pairwise (fun a b => kLt a.key b.key) := by
  have hpk : l.Pairwise (fun a b => a.key ≠ b.key) := List.pairwise_map.mp hnd
  refine (hs.and hpk).imp ?_
  intro a b hab
  exact kLt_of_kLe_of_ne hab.1 hab.2

/-- Moving the watermark forward to a key bk that is itself past the old
watermark restricts pending to the rows past bk. -/
theorem pending_shift {db : List Msg} {since untl : Nat} {w bk : Nat × Nat}
    (hw : kLt w bk) :
    pending db since untl bk =
      (pending db since untl w).filter (fun m => decide (kLt bk m.key)) := by
  unfold pending
  rw [List.filter_filter]
  apply List.filter_congr
  intro m _
  by_cases h : kLt bk m.key
  · have h2 : kLt w m.key := kLt_trans hw h
    simp [h, h2]
  · simp [h]

/-- After a nonempty batch, the rows still pending past the new watermark
(the key of the batch's last row) are exactly the rows the batch did not
return: next pending is a permutation of the drop of the sorted old pending. -/
theorem pending_after_batch {db : List Msg} {since untl limit : Nat}
    (hids : (db.map Msg.id).Nodup) {w : Nat × Nat}
    (hb : fetch_batch db since untl w.1 w.2 limit ≠ []) :
    (pending db since untl
        ((fetch_batch db since untl w.1 w.2 limit).getLast hb).key).Perm
      ((List.insertionSort rowLe (pending db since untl w)).drop limit) := by
  set P := pending db since untl w with hP
  set F := List.insertionSort rowLe P with hF
  set D := F.drop limit with hD
  set B := fetch_batch db since untl w.1 w.2 limit with hB
  have hBtake : B = F.take limit := rfl
  set b := B.getLast hb with hbdef
  have hPF : F.Perm P := List.perm_insertionSort rowLe P
  have hsorted : F.Pairwise rowLe := List.sorted_insertionSort rowLe P
  have hPsub : P.Sublist db := List.filter_sublist db
  have hkeysP : (P.map Msg.key).Nodup := nodup_keys_of_sublist hids hPsub
  have hkeysF : (F.map Msg.key).Nodup :=
    ((hPF.map Msg.key).nodup_iff).mpr hkeysP
  have hstrict : F.Pairwise (fun a b => kLt a.key b.key) :=
    pairwise_kLt_of_sorted_nodup hsorted hkeysF
  have hsplit : B ++ D = F := by rw [hBtake]; exact List.take_append_drop limit F
  have hbmemB : b ∈ B := List.getLast_mem hb
  have hbmemF : b ∈ F := by
    rw [hBtake] at hbmemB
    exact List.take_subset limit F hbmemB
  have hbmemP : b ∈ P := hPF.mem_iff.mp hbmemF
  have hBpair : B.Pairwise (fun a b => kLt a.key b.key) := by
    rw [hBtake]
    exact List.Pairwise.sublist (List.take_sublist limit F) hstrict
  have hwb : kLt w b.key := kLt_of_mem_pending hbmemP
  have hBD : ∀ a ∈ B, ∀ c ∈ D, kLt a.key c.key := by
    have := hstrict
    rw [← hsplit] at this
    exact (List.pairwise_append.mp this).2.2
  have hfB : B.filter (fun m => decide (kLt b.key m.key)) = [] := by
    rw [List.filter_eq_nil_iff]
    intro x hx
    rcases pairwise_rel_getLast hb hBpair x hx with rfl | hlt
    · simpa using kLt_irrefl b.key
    · simpa using kLt_asymm hlt
  have hfD : D.filter (fun m => decide (kLt b.key m.key)) = D := by
    rw [List.filter_eq_self]
    intro x hx
    simpa using hBD b hbmemB x hx
  have h1 : pending db since untl b.key =
      P.filter (fun m => decide (kLt b.key m.key)) := pending_shift hwb
  have h2 : (P.filter (fun m => decide (kLt b.key m.key))).Perm
      (F.filter (fun m => decide (kLt b.key m.key))) :=
    (hPF.filter _).symm
  have h3 : F.filter (fun m => decide (kLt b.key m.key)) = D := by
    rw [← hsplit, List.filter_append, hfB, hfD, List.nil_append]
  rw [h1]
  exact h3 ▸ h2

/-- Unfolding equation of scanGo for positive fuel. -/
theorem scanGo_succ (db : List Msg) (since untl limit fuel : Nat)
    (w : Nat × Nat) :
    scanGo db since untl limit (fuel + 1) w =
      if hb : fetch_batch db since untl w.1 w.2 limit = [] then some []
      else
        match scanGo db since untl limit fuel
            ((fetch_batch db since untl w.1 w.2 limit).getLast hb).key with
        | none => none
        | some rest => some (fetch_batch db since untl w.1 w.2 limit ++ rest) :=
  rfl

/-- With enough fuel, the scan loop reaches the empty fetch and the rows it
has visited are a permutation of the rows pending past the initial
watermark. -/
theorem scanGo_spec (db : List Msg) (since untl limit : Nat)
    (hids : (db.map Msg.id).Nodup) (hl : 1 ≤ limit) :
    ∀ fuel (w : Nat × Nat), (pending db since untl w).length < fuel →
      ∃ v, scanGo db since untl limit fuel w = some v ∧
        v.Perm (pending db since untl w) := by
  intro fuel
  induction fuel with
  | zero => intro w hf; omega
  | succ fuel ih =>
    intro w hf
    by_cases hb : fetch_batch db since untl w.1 w.2 limit = []
    · refine ⟨[], ?_, ?_⟩
      · rw [scanGo_succ, dif_pos hb]
      · have hFnil : List.insertionSort rowLe (pending db since untl w) = [] := by
          rcases List.take_eq_nil_iff.mp hb with h | h
          · omega
          · exact h
        have hPnil : pending db since untl w = [] := by
          have hperm := List.perm_insertionSort rowLe (pending db since untl w)
          rw [hFnil] at hperm
          exact (hperm.symm.eq_nil)
        rw [hPnil]
    · have hD := pending_after_batch hids hb
      have hFP : (List.insertionSort rowLe (pending db since untl w)).length =
          (pending db since untl w).length :=
        (List.perm_insertionSort rowLe (pending db since untl w)).length_eq
      have hFne : List.insertionSort rowLe (pending db since untl w) ≠ [] := by
        intro h0
        apply hb
        show (List.insertionSort rowLe (pending db since untl w)).take limit = []
        rw [h0, List.take_nil]
      have hF1 : 1 ≤ (List.insertionSort rowLe (pending db since untl w)).length :=
        List.length_pos.mpr hFne
      have hlen : (pending db since untl
          ((fetch_batch db since untl w.1 w.2 limit).getLast hb).key).length <
          fuel := by
        have h1 := hD.length_eq
        rw [List.length_drop] at h1
        omega
      obtain ⟨rest, hrest, hrestP⟩ :=
        ih ((fetch_batch db since untl w.1 w.2 limit).getLast hb).key hlen
      refine ⟨fetch_batch db since untl w.1 w.2 limit ++ rest, ?_, ?_⟩
      · rw [scanGo_succ, dif_neg hb, hrest]
      · have h2 : (fetch_batch db since untl w.1 w.2 limit ++ rest).Perm
            (fetch_batch db since untl w.1 w.2 limit ++
              (List.insertionSort rowLe (pending db since untl w)).drop limit) :=
          List.Perm.append_left _ (hrestP.trans hD)
        have h3 : fetch_batch db since untl w.1 w.2 limit ++
            (List.insertionSort rowLe (pending db since untl w)).drop limit =
            List.insertionSort rowLe (pending db since untl w) :=
          List.take_append_drop limit _
        exact (h3 ▸ h2).trans (List.perm_insertionSort rowLe _)

/-- With the initial watermark (since, 0) and positive message ids, the rows
pending are exactly the qualifying rows. -/
theorem pending_init (db : List Msg) (since untl : Nat)
    (hpos : ∀ m ∈ db, 0 < m.id) :
    pending db since untl (since, 0) = db.filter (qualifies since untl) := by
  unfold pending
  apply List.filter_congr
  intro m hm
  by_cases hq : qualifies since untl m
  · have hts : since ≤ m.ts := by
      unfold qualifies at hq
      simp only [Bool.and_eq_true, decide_eq_true_eq] at hq
      exact hq.1.1.1.1.1.1
    have hid : 0 < m.id := hpos m hm
    have hk : kLt (since, 0) m.key := by
      show since < m.ts ∨ (since = m.ts ∧ 0 < m.id)
      omega
    simp [hq, hk]
  · simp [hq]

/-- Claim C2 — cursor completeness.  For every table of messages with
distinct positive ids and every batch size of at least 1, the repeated
fetch-batch loop of src/scripts/analyze_messages.py — filtering rows strictly
beyond the (timestamp, id) watermark, ordering ascending by (timestamp, id),
limiting to the batch size, advancing the watermark to the last returned row
and stopping at the first empty fetch — terminates within length-of-table + 1
iterations, and the union of all batches visits every qualifying message id
exactly once: the visited ids are a duplicate-free permutation of the ids of
exactly the qualifying rows (this includes rows sharing a timestamp, the id
component breaking the tie). -/
theorem cursor_scan_visits_each_qualifying_id_exactly_once
    (db : List Msg) (since untl limit : Nat)
    (hids : (db.map Msg.id).Nodup) (hl : 1 ≤ limit)
    (hpos : ∀ m ∈ db, 0 < m.id) :
    ∃ v, scanMessages db since untl limit (db.length + 1) = some v ∧
      (v.map Msg.id).Perm ((db.filter (qualifies since untl)).map Msg.id) ∧
      (v.map Msg.id).Nodup := by
  have hfuel : (pending db since untl (since, 0)).length < db.length + 1 := by
    have := List.length_filter_le
      (fun m => qualifies since untl m && decide (kLt (since, 0) m.key)) db
    unfold pending
    omega
  obtain ⟨v, hv, hperm⟩ :=
    scanGo_spec db since untl limit hids hl (db.length + 1) (since, 0) hfuel
  rw [pending_init db since untl hpos] at hperm
  refine ⟨v, hv, hperm.map Msg.id, ?_⟩
  have hsub : ((db.filter (qualifies since untl)).map Msg.id).Sublist
      (db.map Msg.id) := (List.filter_sublist db).map Msg.id
  have hnd : ((db.filter (qualifies since untl)).map Msg.id).Nodup :=
    hids.sublist hsub
  exact ((hperm.map Msg.id).nodup_iff).mpr hnd

/-- A small concrete message table with a shared timestamp, used to
instantiate the cursor-completeness theorem. -/
def dbWitness : List Msg :=
  [⟨1, 10, some "a", false, false, false, false⟩,
   ⟨2, 10, some "b", false, false, false, false⟩,
   ⟨3, 5, none, false, false, false, false⟩]

/-! ## Provider response handling -/

/-- The fields DeepSeekExpectationAnalyzer.analyze reads from the decoded
JSON object (src/services/expectations.py, lines 141-148): the values of
"expectation", "priority" and "actions".  none models an absent key; an
"actions" value that is not a list is also modelled as none, matching the
isinstance check which replaces it by []. -/
structure ExpDict where
  expectation : Option String
  priority : Option String
  actions : Option (List String)
  deriving DecidableEq, Repr

/-- Outcome of json.loads on the fence-stripped provider content for the
expectation analyzer: a decode failure, or a decoded object. -/
inductive ExpParse where
  | fail
  | ok (d : ExpDict)
  deriving DecidableEq, Repr

/-- The generic filler action appended while len(actions) < 3. -/
def fillerAction : String := "Уточнить детали запроса клиента"

/-- The priority values accepted by the validation on line 148. -/
def allowedPriorities : List String := ["high", "medium", "low"]

/-- The fallback dict substituted on json.JSONDecodeError
(src/services/expectations.py, lines 134-139). -/
def expFallback : ExpDict := ⟨some "", some "low", some []⟩

/-- Lines 141-151 of src/services/expectations.py: read actions (defaulting
to [] when the key is absent or its value is not a list), append the filler
while the list is shorter than 3 (the while-loop, here written as an append
of the needed number of copies) and truncate to the first 3; replace the
priority by "medium" unless it is one of high, medium, low. -/
def normalizeExp (d : ExpDict) : ExpDict :=
  let actions := d.actions.getD []
  let actions := (actions ++ List.replicate (3 - actions.length) fillerAction).take 3
  let priority :=
    match d.priority with
    | some p => if p ∈ allowedPriorities then p else "medium"
    | none => "medium"
  ⟨d.expectation, some priority, some actions⟩

/-- The result dict of DeepSeekExpectationAnalyzer.analyze as a function of
the JSON decode outcome: a decode failure substitutes the fallback dict, and
either way the shape normalization runs. -/
def expAnalyzeResult : ExpParse → ExpDict
  | .fail => normalizeExp expFallback
  | .ok d => normalizeExp d

/-- One transport attempt of a provider call: a timeout-class failure
(httpx.ConnectTimeout / httpx.ReadTimeout), or a reply carrying the decoded
content and the token count computed from the usage block. -/
inductive TransportRes (α : Type) where
  | timeout
  | reply (content : α) (tokens : Nat)
  deriving DecidableEq, Repr

/-- The direct-httpx retry loop of DeepSeekExpectationAnalyzer.analyze
(for attempt in range(3), src/services/expectations.py lines 96-129),
with the provider modelled as a function from the attempt index to that
attempt's outcome.  A reply breaks out of the loop; a timeout on the last
attempt propagates (if attempt == 2: raise); an earlier timeout sleeps
2 ^ attempt seconds and retries.  Returns the outcome, the number of
attempts performed and the list of backoff sleeps, with the remaining-retry
count as the structural argument (initially 2, for 3 total attempts). -/
def expCallGo (t : Nat → TransportRes ExpParse) :
    Nat → Nat → Except Unit (ExpParse × Nat) × Nat × List Nat
  | attempt, 0 =>
    match t attempt with
    | .reply c tok => (.ok (c, tok), 1, [])
    | .timeout => (.error (), 1, [])
  | attempt, r + 1 =>
    match t attempt with
    | .reply c tok => (.ok (c, tok), 1, [])
    | .timeout =>
      let res := expCallGo t (attempt + 1) r
      (res.1, res.2.1 + 1, (2 ^ attempt) :: res.2.2)

/-- The full retry loop: attempt 0 with 2 retries left. -/
def expCall (t : Nat → TransportRes ExpParse) :
    Except Unit (ExpParse × Nat) × Nat × List Nat :=
  expCallGo t 0 2

/-- DeepSeekExpectationAnalyzer.analyze, direct-httpx path: run the retry
loop, then decode and normalize.  Transport exhaustion propagates as an
error; provider-output malformation never does. -/
def expAnalyze (t : Nat → TransportRes ExpParse) :
    Except Unit (ExpDict × Nat) :=
  match (expCall t).1 with
  | .error e => .error e
  | .ok (c, tok) => .ok (expAnalyzeResult c, tok)

/-- The fields IntentClassifier.classify reads from the decoded
classification JSON (src/services/intent_classifier.py, lines 179-188).
The float confidence is modelled as a rational; the entities map as an
association list. -/
structure IntentDict where
  intent : Option String
  sentiment : Option String
  entities : Option (List (String × String))
  confidence : Option Rat
  deriving DecidableEq, Repr

/-- Outcome of json.loads on the fence-stripped provider content for the
intent classifier. -/
inductive IntentParse where
  | fail
  | ok (d : IntentDict)
  deriving DecidableEq, Repr

/-- The MessageAnalysis dataclass (model_used and the wall-clock
processing_time_ms are not modelled). -/
structure MessageAnalysis where
  message_id : Nat
  intent : String
  sentiment : String
  entities : List (String × String)
  confidence : Rat
  tokens_used : Nat
  deriving DecidableEq, Repr

/-- The fallback dict substituted on json.JSONDecodeError inside classify
(src/services/intent_classifier.py, lines 170-175). -/
def intentFallbackDict : IntentDict :=
  ⟨some "unknown", some "unknown", some [], some 0⟩

/-- The shared MessageAnalysis construction of classify (lines 179-188):
each field is read from the result dict with a per-field default —
intent and sentiment default to "unknown", entities to the empty map, and
confidence to 0.5. -/
def intentResultOf (message_id : Nat) (d : IntentDict) (tok : Nat) :
    MessageAnalysis :=
  { message_id := message_id,
    intent := d.intent.getD "unknown",
    sentiment := d.sentiment.getD "unknown",
    entities := d.entities.getD [],
    confidence := d.confidence.getD (1 / 2),
    tokens_used := tok }

/-- IntentClassifier.classify, direct-httpx path: a single provider call
(there is no retry loop), the whole body wrapped in a catch-all except that
returns the degraded default analysis (lines 190-203).  The second component
is the number of transport attempts performed, always 1. -/
def classify (message_id : Nat) (t : Nat → TransportRes IntentParse) :
    MessageAnalysis × Nat :=
  match t 0 with
  | .timeout =>
    ({ message_id := message_id, intent := "unknown", sentiment := "unknown",
       entities := [], confidence := 0, tokens_used := 0 }, 1)
  | .reply .fail tok => (intentResultOf message_id intentFallbackDict tok, 1)
  | .reply (.ok d) tok => (intentResultOf message_id d tok, 1)

/-- The rendered classification prompt: CLASSIFY_PROMPT.format applied to
the first 500 characters of the message text
(src/services/intent_classifier.py, line 121).  The template text around
the substituted message is fixed. -/
def classifyPromptHead : String :=
  "Ты аналитик цветочной компании. Классифицируй сообщение клиента.\n\nСообщение: \""

/-- The fixed template text after the substituted message, with the JSON
shape instruction and the few-shot examples. -/
def classifyPromptTail : String :=
  "\"\n\nВерни JSON:\n\x7b\n  \"intent\": \"question|order|complaint|interest|confirmation|other\",\n  \"sentiment\": \"positive|neutral|negative\",\n  \"entities\": \x7b\"product\": \"...\", \"quantity\": ..., \"price\": ...\x7d,\n  \"confidence\": 0.0-1.0,\n  \"reasoning\": \"краткое обоснование\"\n\x7d\n\nПримеры:\n- \"Сколько стоят тюльпаны?\" -> intent: question, sentiment: neutral\n- \"Беру 50 шт роз\" -> intent: order, sentiment: positive\n- \"Пришли бракованные цветы!\" -> intent: complaint, sentiment: negative\n- \"Красивые пионы, возьму\" -> intent: interest, sentiment: positive\n- \"Да, заказываю\" -> intent: confirmation, sentiment: positive\n"

/-- The user prompt sent by classify: the template with the message text
truncated to its first 500 characters. -/
def classifyPrompt (text : String) : String :=
  classifyPromptHead ++ text.take 500 ++ classifyPromptTail

/-! ## Theorems on the provider response handling -/

/-- Witness: the cursor-completeness theorem instantiated on a concrete
table with a shared timestamp and batch size 1. -/
theorem cursor_scan_witness :
    ((dbWitness.map Msg.id).Nodup ∧ 1 ≤ 1 ∧ ∀ m ∈ dbWitness, 0 < m.id) ∧
    (∃ v, scanMessages dbWitness 0 100 1 (dbWitness.length + 1) = some v ∧
      (v.map Msg.id).Perm ((dbWitness.filter (qualifies 0 100)).map Msg.id) ∧
      (v.map Msg.id).Nodup) :=
  ⟨⟨by decide, by decide, by decide⟩,
    cursor_scan_visits_each_qualifying_id_exactly_once dbWitness 0 100 1
      (by decide) (by decide) (by decide)⟩

/-- Claim C10 — prompt truncation: the classification prompt is a function
of only the first 500 characters of the message text, so two texts agreeing
on those characters render the identical prompt. -/
theorem prompt_depends_only_on_first_500_chars (t1 t2 : String)
    (h : t1.take 500 = t2.take 500) :
    classifyPrompt t1 = classifyPrompt t2 := by
  unfold classifyPrompt
  rw [h]

/-- Witness: the prompt-truncation theorem applied at a concrete message
text. -/
theorem prompt_truncation_witness :
    ("Сколько стоят тюльпаны?".take 500 = "Сколько стоят тюльпаны?".take 500) ∧
    classifyPrompt "Сколько стоят тюльпаны?" =
      classifyPrompt "Сколько стоят тюльпаны?" :=
  ⟨rfl, prompt_depends_only_on_first_500_chars _ _ rfl⟩

/-- Claim C3 (amended) — parse-failure and missing-field defaults.  Neither
classifier raises on malformed provider output.  On JSON decode failure the
expectation analyzer substitutes expectation "" and priority "low" with the
actions padded to the 3 generic fillers, while the intent classifier
substitutes intent "unknown", sentiment "unknown" and confidence 0.  When
the JSON decodes but lacks fields, the defaults are per-field: intent and
sentiment default to "unknown", confidence to 0.5, and priority to
"medium". -/
theorem parse_failure_defaults :
    (expAnalyzeResult ExpParse.fail =
      ⟨some "", some "low", some (List.replicate 3 fillerAction)⟩) ∧
    (∀ mid tok (t : Nat → TransportRes IntentParse),
      t 0 = TransportRes.reply IntentParse.fail tok →
        (classify mid t).1.intent = "unknown" ∧
        (classify mid t).1.sentiment = "unknown" ∧
        (classify mid t).1.confidence = 0) ∧
    (∀ mid tok (t : Nat → TransportRes IntentParse) (d : IntentDict),
      t 0 = TransportRes.reply (IntentParse.ok d) tok →
        d.intent = none → d.sentiment = none → d.confidence = none →
        (classify mid t).1.intent = "unknown" ∧
        (classify mid t).1.sentiment = "unknown" ∧
        (classify mid t).1.confidence = 1 / 2) ∧
    (∀ e a, (expAnalyzeResult (ExpParse.ok ⟨e, none, a⟩)).priority =
      some "medium") := by
  refine ⟨by decide, ?_, ?_, ?_⟩
  · intro mid tok t ht
    simp [classify, ht, intentResultOf, intentFallbackDict]
  · intro mid tok t d ht hi hs hc
    simp [classify, ht, intentResultOf, hi, hs, hc]
  · intro e a
    simp [expAnalyzeResult, normalizeExp]

/-- Witness: the intent classifier applied to an unparseable reply. -/
theorem parse_failure_defaults_witness :
    ((fun _ : Nat => TransportRes.reply IntentParse.fail 7) 0 =
      TransportRes.reply IntentParse.fail 7) ∧
    (classify 3 (fun _ => TransportRes.reply IntentParse.fail 7)).1.intent =
      "unknown" :=
  ⟨rfl, (parse_failure_defaults.2.1 3 7
    (fun _ => TransportRes.reply IntentParse.fail 7) rfl).1⟩

/-- Counterexample to claim C3 as stated: on parse failure the expectation
analyzer's default priority is "low", not "medium", and the intent
classifier's default sentiment is "unknown", not "neutral". -/
theorem parse_failure_defaults_counterexample :
    (expAnalyzeResult ExpParse.fail).priority = some "low" ∧
    (some "low" : Option String) ≠ some "medium" ∧
    (classify 1 (fun _ => TransportRes.reply IntentParse.fail 7)).1.sentiment =
      "unknown" ∧
    ("unknown" : String) ≠ "neutral" := by
  refine ⟨by decide, by decide, by decide, by decide⟩

/-- Claim C4 (amended) — shape normalization in the expectation analyzer:
for every decode outcome the actions list of the result has exactly 3
entries and the priority is in the allowed set, with any invalid priority
value (such as "urgent") replaced by "medium".  The intent classifier
performs no such normalization (see the counterexample). -/
theorem exp_shape_normalization :
    (∀ po : ExpParse, ∃ acts, (expAnalyzeResult po).actions = some acts ∧
      acts.length = 3) ∧
    (∀ po : ExpParse, ∃ p, (expAnalyzeResult po).priority = some p ∧
      p ∈ allowedPriorities) ∧
    (∀ d : ExpDict, d.priority = some "urgent" →
      (expAnalyzeResult (ExpParse.ok d)).priority = some "medium") := by
  have hact : ∀ d : ExpDict, ∃ acts, (normalizeExp d).actions = some acts ∧
      acts.length = 3 := by
    intro d
    refine ⟨_, rfl, ?_⟩
    have h1 := List.length_replicate (3 - (d.actions.getD []).length) fillerAction
    simp only [List.length_take, List.length_append, h1]
    omega
  have hpri : ∀ d : ExpDict, ∃ p, (normalizeExp d).priority = some p ∧
      p ∈ allowedPriorities := by
    intro d
    rcases d with ⟨e, p, a⟩
    rcases p with _ | p
    · exact ⟨"medium", rfl, by decide⟩
    · by_cases hp : p ∈ allowedPriorities
      · exact ⟨p, by simp [normalizeExp, hp], hp⟩
      · exact ⟨"medium", by simp [normalizeExp, hp], by decide⟩
  refine ⟨?_, ?_, ?_⟩
  · intro po
    cases po with
    | fail => exact hact expFallback
    | ok d => exact hact d
  · intro po
    cases po with
    | fail => exact hpri expFallback
    | ok d => exact hpri d
  · intro d hd
    rcases d with ⟨e, p, a⟩
    cases hd
    simp [expAnalyzeResult, normalizeExp, allowedPriorities]

/-- Witness: an "urgent" priority is normalized to "medium". -/
theorem exp_shape_normalization_witness :
    ((⟨none, some "urgent", none⟩ : ExpDict).priority = some "urgent") ∧
    (expAnalyzeResult (ExpParse.ok ⟨none, some "urgent", none⟩)).priority =
      some "medium" :=
  ⟨rfl, exp_shape_normalization.2.2 ⟨none, some "urgent", none⟩ rfl⟩

/-- The intent value set named by the spec (§3, IntentResult). -/
def specIntentValues : List String :=
  ["question", "order", "complaint", "interest", "confirmation", "other",
   "unknown"]

/-- The sentiment value set named by the spec (§3, IntentResult). -/
def specSentimentValues : List String :=
  ["positive", "neutral", "negative", "unknown"]

/-- Counterexample to claim C4 as stated: the intent classifier does not
validate its enum fields — an invalid intent and sentiment returned by the
provider pass through unchanged. -/
theorem shape_normalization_counterexample :
    (classify 1 (fun _ => TransportRes.reply
      (IntentParse.ok ⟨some "banana", some "angry", none, none⟩) 5)).1.intent =
      "banana" ∧
    "banana" ∉ specIntentValues ∧
    (classify 1 (fun _ => TransportRes.reply
      (IntentParse.ok ⟨some "banana", some "angry", none, none⟩) 5)).1.sentiment =
      "angry" ∧
    "angry" ∉ specSentimentValues := by
  refine ⟨by decide, by decide, by decide, by decide⟩

/-- Claim C7 (amended) — retry and degradation.  The expectation analyzer's
direct HTTP path retries timeouts up to 3 attempts with backoff sleeps of
2 ^ attempt seconds (1 then 2) and propagates the failure after the third
timeout; a reply on an earlier attempt stops the loop.  The intent
classifier instead performs a single attempt and converts a transport
failure into the degraded default analysis rather than propagating it. -/
theorem retry_and_degradation :
    (∀ t : Nat → TransportRes ExpParse,
      (∀ i, i < 3 → t i = TransportRes.timeout) →
        expCall t = (Except.error (), 3, [1, 2])) ∧
    (∀ (t : Nat → TransportRes ExpParse) c tok,
      t 0 = TransportRes.reply c tok →
        expCall t = (Except.ok (c, tok), 1, [])) ∧
    (∀ (t : Nat → TransportRes ExpParse) c tok,
      t 0 = TransportRes.timeout → t 1 = TransportRes.reply c tok →
        expCall t = (Except.ok (c, tok), 2, [1])) ∧
    (∀ mid (t : Nat → TransportRes IntentParse),
      t 0 = TransportRes.timeout →
        (classify mid t).2 = 1 ∧
        (classify mid t).1 = ⟨mid, "unknown", "unknown", [], 0, 0⟩) := by
  refine ⟨?_, ?_, ?_, ?_⟩
  · intro t ht
    have h0 := ht 0 (by omega)
    have h1 := ht 1 (by omega)
    have h2 := ht 2 (by omega)
    simp [expCall, expCallGo, h0, h1, h2]
  · intro t c tok h0
    simp [expCall, expCallGo, h0]
  · intro t c tok h0 h1
    simp [expCall, expCallGo, h0, h1]
  · intro mid t h0
    simp [classify, h0]

/-- Witness: the retry loop on an always-timing-out transport. -/
theorem retry_and_degradation_witness :
    (∀ i, i < 3 →
      (fun _ : Nat => (TransportRes.timeout : TransportRes ExpParse)) i =
        TransportRes.timeout) ∧
    expCall (fun _ => TransportRes.timeout) = (Except.error (), 3, [1, 2]) :=
  ⟨fun _ _ => rfl,
    retry_and_degradation.1 (fun _ => TransportRes.timeout) (fun _ _ => rfl)⟩

/-- Counterexample to claim C7 as stated: on a timeout the intent classifier
makes exactly one attempt (no retries) and returns the default analysis
instead of propagating a transport error. -/
theorem retry_counterexample :
    (classify 1 (fun _ => TransportRes.timeout)).2 = 1 ∧
    (1 : Nat) ≠ 3 ∧
    (classify 1 (fun _ => TransportRes.timeout)).1.intent = "unknown" ∧
    (classify 1 (fun _ => TransportRes.timeout)).1.confidence = 0 := by
  refine ⟨by decide, by decide, by decide, by decide⟩

/-! ## The expectations run (src/services/expectations.py) -/

/-- A per-chat entry of the expectations cache document.  Each field is
optional since the JSON object starts empty ({}); last_analyzed_at holds the
already-parsed timestamp: isoformat values written by the pipeline always
parse back, so none models an absent or unparseable value (_parse_dt
returning None). -/
structure CacheEntry where
  chat_name : Option String
  customer_name : Option String
  customer_sync_id : Option Nat
  expectation : Option String
  priority : Option String
  actions : Option (List String)
  last_client_message : Option String
  last_message_at : Option Nat
  last_analyzed_at : Option Nat
  tokens_used : Option Nat
  skipped : Option Bool
  deriving DecidableEq, Repr

/-- The empty dict used when a chat has no cache entry yet
(chats_cache.get(chat_key, \x7b\x7d)). -/
def emptyEntry : CacheEntry :=
  ⟨none, none, none, none, none, none, none, none, none, none, none⟩

/-- A row of _fetch_active_chats: chat id, MAX(timestamp) of its messages in
the activity window (never null for a returned row, since the aggregation
only returns groups with at least one message), and display fields. -/
structure ActiveChat where
  chat_id : Nat
  last_message_at : Nat
  chat_name : Option String
  customer_name : Option String
  customer_sync_id : Option Nat
  deriving DecidableEq, Repr

/-- A row of _fetch_context: role tag, user names and text. -/
structure CtxMsg where
  role : String
  username : Option String
  first_name : Option String
  last_name : Option String
  text : Option String
  deriving DecidableEq, Repr

/-- Python string truthiness for an optional text value. -/
def textTruthy : Option String → Bool
  | none => false
  | some s => s != ""

/-- One line of _format_conversation: join the non-empty name parts, fall
back to the username and then to the role, and append the stripped text. -/
def formatLine (msg : CtxMsg) : String :=
  let name1 := (String.intercalate " "
    (([msg.first_name.getD "", msg.last_name.getD ""]).filter
      (fun p => p != ""))).trim
  let name2 := if name1 = "" ∧ textTruthy msg.username then
      msg.username.getD "" else name1
  let name3 := if name2 = "" then msg.role else name2
  "[" ++ msg.role ++ "] " ++ name3 ++ ": " ++ (msg.text.getD "").trim

/-- _format_conversation: one line per message. -/
def formatConversation (msgs : List CtxMsg) : String :=
  String.intercalate "\n" (msgs.map formatLine)

/-- _last_client_message: the text of the latest CLIENT message with truthy
text, or "". -/
def lastClientMessage (msgs : List CtxMsg) : String :=
  match msgs.reverse.find? (fun m => m.role == "CLIENT" && textTruthy m.text) with
  | some m => m.text.getD ""
  | none => ""

/-- The read-side environment of one run: the context rows _fetch_context
returns per chat id, and the provider's decoded reply per
(customer_label, conversation) pair, with its token count.  Transport
failures of the provider are not modelled here (see the retry theorems for
the transport layer). -/
structure RunEnv where
  ctx : Nat → List CtxMsg
  oracle : String → String → ExpParse × Nat

/-- The mutable state shared by the per-chat tasks: the chats map of the
cache document and the analyzed / skipped counters, plus an instrumentation
counter of provider invocations. -/
structure RunState where
  chats : Nat → Option CacheEntry
  analyzed : Nat
  skipped : Nat
  llmCalls : Nat

/-- Point update of the chats map. -/
def setChat (f : Nat → Option CacheEntry) (k : Nat) (v : CacheEntry) :
    Nat → Option CacheEntry :=
  fun k2 => if k2 = k then some v else f k2

/-- The skip test of process_chat (line 305):
not force and cached_last and last_message_at and
last_message_at <= cached_last.  The activity row's last_message_at is
always present (see ActiveChat), so its truthiness test is always true. -/
def skipCondition (force : Bool) (cached : CacheEntry) (lma : Nat) : Bool :=
  !force &&
    (match cached.last_analyzed_at with
      | some t => decide (lma ≤ t)
      | none => false)

/-- customer_label (line 329): chat.get("customer_name") or
chat.get("chat_name") or str(chat_id), with Python string truthiness. -/
def customerLabel (chat : ActiveChat) : String :=
  if textTruthy chat.customer_name then chat.customer_name.getD ""
  else if textTruthy chat.chat_name then chat.chat_name.getD ""
  else toString chat.chat_id

/-- The placeholder entry fields written for an empty context
(lines 313-324). -/
def placeholderActions : List String :=
  ["Проверить наличие сообщений", "Уточнить статус чата",
   "Обновить данные клиента"]

/-- The cache entry written by the skip branch of process_chat
(lines 306-308): the fresh last_message_at and the skipped mark, all other
fields kept. -/
def skipEntry (cached : CacheEntry) (lma : Nat) : CacheEntry :=
  { cached with last_message_at := some lma, skipped := some true }

/-- The cache entry written for an empty context (lines 313-324): the
placeholder expectation, priority "low", the 3 generic filler actions, the
fresh analysis timestamp, and skipped = False. -/
def placeholderEntry (cached : CacheEntry) (lma now : Nat) : CacheEntry :=
  { cached with
    last_message_at := some lma,
    last_analyzed_at := some now,
    expectation := some "Нет данных для анализа",
    priority := some "low",
    actions := some placeholderActions,
    skipped := some false }

/-- The cache entry written after a provider call (lines 336-350). -/
def analyzedEntry (cached : CacheEntry) (chat : ActiveChat) (now : Nat)
    (analysis : ExpDict) (tokens : Nat) (context : List CtxMsg) : CacheEntry :=
  { cached with
    chat_name := chat.chat_name,
    customer_name := chat.customer_name,
    customer_sync_id := chat.customer_sync_id,
    expectation := some (analysis.expectation.getD ""),
    priority := some (analysis.priority.getD "medium"),
    actions := some ((analysis.actions.getD []).take 3),
    last_client_message := some (lastClientMessage context),
    last_message_at := some chat.last_message_at,
    last_analyzed_at := some now,
    tokens_used := some tokens,
    skipped := some false }

/-- process_chat of analyze_expectations: skip via the staleness gate, or
write the placeholder entry when the assembled context is empty, or call
the analyzer and write the full entry.  now models the utcnow() calls of
the run. -/
def process_chat (force : Bool) (now : Nat) (env : RunEnv)
    (st : RunState) (chat : ActiveChat) : RunState :=
  let cached := (st.chats chat.chat_id).getD emptyEntry
  if skipCondition force cached chat.last_message_at then
    { st with
      chats := setChat st.chats chat.chat_id
        (skipEntry cached chat.last_message_at),
      skipped := st.skipped + 1 }
  else
    let context := env.ctx chat.chat_id
    if context.isEmpty then
      { st with
        chats := setChat st.chats chat.chat_id
          (placeholderEntry cached chat.last_message_at now),
        analyzed := st.analyzed + 1 }
    else
      let res := env.oracle (customerLabel chat) (formatConversation context)
      { st with
        chats := setChat st.chats chat.chat_id
          (analyzedEntry cached chat now (expAnalyzeResult res.1) res.2 context),
        analyzed := st.analyzed + 1,
        llmCalls := st.llmCalls + 1 }

/-- The stats block written at the end of a run. -/
structure Stats where
  active_chats : Nat
  analyzed : Nat
  skipped : Nat
  deriving DecidableEq, Repr

/-- The cache document: updated_at, the chats map and the stats block. -/
structure Cache where
  updated_at : Option Nat
  chats : Nat → Option CacheEntry
  stats : Option Stats

/-- The value of one run: the returned cache document, the document handed
to write_cache (none under dry_run), and the provider invocation count. -/
structure RunResult where
  cache : Cache
  persisted : Option Cache
  llmCalls : Nat

/-- The body of analyze_expectations after the API-key guard: truncate the
active list when a truthy limit is given, fold the per-chat tasks over the
shared state (the tasks of the asyncio.gather write disjoint keys, so the
sequential fold computes the same final map and counters), then assemble
updated_at, chats and stats, and persist unless dry_run. -/
def runBody (force dry_run : Bool) (now : Nat) (env : RunEnv)
    (cache0 : Cache) (active : List ActiveChat) (lim : Option Nat) :
    RunResult :=
  let active2 := match lim with
    | some n => if n == 0 then active else active.take n
    | none => active
  let st0 : RunState := ⟨cache0.chats, 0, 0, 0⟩
  let st := active2.foldl (process_chat force now env) st0
  let cache : Cache :=
    ⟨some now, st.chats, some ⟨active2.length, st.analyzed, st.skipped⟩⟩
  ⟨cache, if dry_run then none else some cache, st.llmCalls⟩

/-- analyze_expectations: raise when the API key is unset and the run is not
a dry run (lines 274-275), otherwise run the body. -/
def analyze_expectations (apiKeySet force dry_run : Bool) (now : Nat)
    (env : RunEnv) (cache0 : Cache) (active : List ActiveChat)
    (lim : Option Nat) : Except Unit RunResult :=
  if !apiKeySet && !dry_run then .error ()
  else .ok (runBody force dry_run now env cache0 active lim)

/-! ### Branch lemmas for process_chat -/

theorem setChat_same (f : Nat → Option CacheEntry) (k : Nat) (v : CacheEntry) :
    setChat f k v k = some v := by simp [setChat]

theorem setChat_other (f : Nat → Option CacheEntry) (k : Nat) (v : CacheEntry)
    (k2 : Nat) (h : k2 ≠ k) : setChat f k v k2 = f k2 := by simp [setChat, h]

/-- The skip test holds exactly when force is false, the cached entry has a
(parseable) last_analyzed_at, and the activity is no newer than it. -/
theorem skipCondition_iff (force : Bool) (cached : CacheEntry) (lma : Nat) :
    skipCondition force cached lma = true ↔
      (force = false ∧ ∃ t, cached.last_analyzed_at = some t ∧ lma ≤ t) := by
  unfold skipCondition
  cases force <;> cases h : cached.last_analyzed_at <;> simp [h]

theorem process_chat_skip (force : Bool) (now : Nat) (env : RunEnv)
    (st : RunState) (chat : ActiveChat)
    (hsc : skipCondition force ((st.chats chat.chat_id).getD emptyEntry)
      chat.last_message_at = true) :
    process_chat force now env st chat =
      { st with
        chats := setChat st.chats chat.chat_id
          (skipEntry ((st.chats chat.chat_id).getD emptyEntry)
            chat.last_message_at),
        skipped := st.skipped + 1 } := by
  unfold process_chat
  rw [if_pos hsc]

theorem process_chat_placeholder (force : Bool) (now : Nat) (env : RunEnv)
    (st : RunState) (chat : ActiveChat)
    (hsc : skipCondition force ((st.chats chat.chat_id).getD emptyEntry)
      chat.last_message_at = false)
    (hctx : env.ctx chat.chat_id = []) :
    process_chat force now env st chat =
      { st with
        chats := setChat st.chats chat.chat_id
          (placeholderEntry ((st.chats chat.chat_id).getD emptyEntry)
            chat.last_message_at now),
        analyzed := st.analyzed + 1 } := by
  unfold process_chat
  rw [if_neg (by simp [hsc]), hctx]
  rfl

theorem process_chat_analyze (force : Bool) (now : Nat) (env : RunEnv)
    (st : RunState) (chat : ActiveChat)
    (hsc : skipCondition force ((st.chats chat.chat_id).getD emptyEntry)
      chat.last_message_at = false)
    (hctx : env.ctx chat.chat_id ≠ []) :
    process_chat force now env st chat =
      { st with
        chats := setChat st.chats chat.chat_id
          (analyzedEntry ((st.chats chat.chat_id).getD emptyEntry) chat now
            (expAnalyzeResult (env.oracle (customerLabel chat)
              (formatConversation (env.ctx chat.chat_id))).1)
            (env.oracle (customerLabel chat)
              (formatConversation (env.ctx chat.chat_id))).2
            (env.ctx chat.chat_id)),
        analyzed := st.analyzed + 1,
        llmCalls := st.llmCalls + 1 } := by
  unfold process_chat
  rw [if_neg (by simp [hsc]), if_neg (by simp [List.isEmpty_iff, hctx])]

/-! ### Staleness gate, placeholder and dry-run theorems -/

/-- Claim C1 — staleness gate.  A conversation processed by a run is counted
as skipped exactly when force is false, the cached entry carries a parseable
last_analyzed_at, and the activity's last_message_at is at most that
timestamp; in every other case it is counted as analyzed, and the skip path
never invokes the provider. -/
theorem staleness_gate (force : Bool) (now : Nat) (env : RunEnv)
    (st : RunState) (chat : ActiveChat) :
    ((process_chat force now env st chat).skipped = st.skipped + 1 ↔
      (force = false ∧ ∃ t,
        ((st.chats chat.chat_id).getD emptyEntry).last_analyzed_at = some t ∧
        chat.last_message_at ≤ t)) ∧
    ((process_chat force now env st chat).analyzed = st.analyzed + 1 ↔
      ¬ (force = false ∧ ∃ t,
        ((st.chats chat.chat_id).getD emptyEntry).last_analyzed_at = some t ∧
        chat.last_message_at ≤ t)) ∧
    ((process_chat force now env st chat).skipped = st.skipped + 1 →
      (process_chat force now env st chat).llmCalls = st.llmCalls) := by
  cases hsc : skipCondition force ((st.chats chat.chat_id).getD emptyEntry)
      chat.last_message_at with
  | true =>
    have hcond := (skipCondition_iff force _ chat.last_message_at).mp hsc
    rw [process_chat_skip force now env st chat hsc]
    refine ⟨?_, ?_, ?_⟩
    · simpa using hcond
    · simpa using hcond
    · intro _
      rfl
  | false =>
    have hn : ¬ (force = false ∧ ∃ t,
        ((st.chats chat.chat_id).getD emptyEntry).last_analyzed_at = some t ∧
        chat.last_message_at ≤ t) := by
      intro h
      have := (skipCondition_iff force _ chat.last_message_at).mpr h
      rw [hsc] at this
      exact Bool.false_ne_true this
    by_cases hctx : env.ctx chat.chat_id = []
    · rw [process_chat_placeholder force now env st chat hsc hctx]
      refine ⟨?_, ?_, ?_⟩
      · simp only [hn, iff_false]
        omega
      · simpa using hn
      · intro h
        exfalso
        simp at h
    · rw [process_chat_analyze force now env st chat hsc hctx]
      refine ⟨?_, ?_, ?_⟩
      · simp only [hn, iff_false]
        omega
      · simpa using hn
      · intro h
        exfalso
        simp at h

/-- An environment with one nonempty context used for witnesses. -/
def envC : RunEnv :=
  ⟨fun _ => [⟨"CLIENT", none, some "Иван", none, some "Привет"⟩],
   fun _ _ => (ExpParse.fail, 5)⟩

/-- A cached entry analyzed at time 10. -/
def entryAt10 : CacheEntry := { emptyEntry with last_analyzed_at := some 10 }

/-- A run state whose cache maps every chat to entryAt10. -/
def stWitness : RunState := ⟨fun _ => some entryAt10, 0, 0, 0⟩

/-- An active chat whose last activity (time 5) predates the cached
analysis. -/
def chatWitness : ActiveChat := ⟨1, 5, none, none, none⟩

/-- Witness: the staleness gate skips a conversation whose activity predates
its cached analysis. -/
theorem staleness_gate_witness :
    (false = false ∧ ∃ t,
      ((stWitness.chats chatWitness.chat_id).getD emptyEntry).last_analyzed_at
        = some t ∧ chatWitness.last_message_at ≤ t) ∧
    (process_chat false 20 envC stWitness chatWitness).skipped =
      stWitness.skipped + 1 :=
  ⟨⟨rfl, 10, rfl, by decide⟩,
    (staleness_gate false 20 envC stWitness chatWitness).1.mpr
      ⟨rfl, 10, rfl, by decide⟩⟩

/-- Claim C8 — empty-context placeholder.  When the staleness gate does not
skip and the assembled context is empty, the run writes the placeholder
entry (the "no data" expectation, priority "low", exactly the 3 generic
filler actions, a fresh last_analyzed_at and skipped = false), counts the
conversation as analyzed, and does not invoke the provider. -/
theorem empty_context_placeholder (force : Bool) (now : Nat) (env : RunEnv)
    (st : RunState) (chat : ActiveChat)
    (hsc : skipCondition force ((st.chats chat.chat_id).getD emptyEntry)
      chat.last_message_at = false)
    (hctx : env.ctx chat.chat_id = []) :
    (∃ e, (process_chat force now env st chat).chats chat.chat_id = some e ∧
      e.expectation = some "Нет данных для анализа" ∧
      e.priority = some "low" ∧
      e.actions = some placeholderActions ∧ placeholderActions.length = 3 ∧
      e.last_analyzed_at = some now ∧
      e.skipped = some false) ∧
    (process_chat force now env st chat).analyzed = st.analyzed + 1 ∧
    (process_chat force now env st chat).skipped = st.skipped ∧
    (process_chat force now env st chat).llmCalls = st.llmCalls := by
  rw [process_chat_placeholder force now env st chat hsc hctx]
  exact ⟨⟨placeholderEntry ((st.chats chat.chat_id).getD emptyEntry)
      chat.last_message_at now,
    setChat_same st.chats chat.chat_id _, rfl, rfl, rfl, by decide, rfl, rfl⟩,
    rfl, rfl, rfl⟩

/-- An environment whose context assembly is empty for every chat. -/
def envEmptyCtx : RunEnv := ⟨fun _ => [], fun _ _ => (ExpParse.fail, 5)⟩

/-- A run state with an empty cache map. -/
def stEmptyCache : RunState := ⟨fun _ => none, 0, 0, 0⟩

/-- Witness: the placeholder path on a concrete never-analyzed chat with an
empty context. -/
theorem empty_context_placeholder_witness :
    (skipCondition false
      ((stEmptyCache.chats chatWitness.chat_id).getD emptyEntry)
      chatWitness.last_message_at = false ∧
     envEmptyCtx.ctx chatWitness.chat_id = []) ∧
    (process_chat false 20 envEmptyCtx stEmptyCache chatWitness).analyzed =
      stEmptyCache.analyzed + 1 :=
  ⟨⟨by decide, rfl⟩,
    (empty_context_placeholder false 20 envEmptyCtx stEmptyCache chatWitness
      (by decide) rfl).2.1⟩

/-- The empty cache document (load_cache on a missing file). -/
def emptyCacheDoc : Cache := ⟨none, fun _ => none, none⟩

/-- Claim C6 — the failing input.  A dry run over one active chat with a
nonempty context passes the API-key guard even with the key unset, performs
no persistence, and yet still invokes the provider once: process_chat has no
dry_run test, only write_cache is gated. -/
theorem dry_run_still_invokes_classifier :
    (analyze_expectations false false true 100 envC emptyCacheDoc
        [chatWitness] none).map (fun r => (r.llmCalls, r.persisted.isNone)) =
      Except.ok (1, true) := rfl

/-! ### Idempotence of a second run -/

/-- The cached entry of chat c is watermarked at or past its activity: the
exact situation in which the staleness gate skips (with force false). -/
def watermarked (st : RunState) (c : ActiveChat) : Prop :=
  ∃ t, ((st.chats c.chat_id).getD emptyEntry).last_analyzed_at = some t ∧
    c.last_message_at ≤ t

theorem process_chat_skip_of_watermarked (now : Nat) (env : RunEnv)
    (st : RunState) (c : ActiveChat) (h : watermarked st c) :
    process_chat false now env st c =
      { st with
        chats := setChat st.chats c.chat_id
          (skipEntry ((st.chats c.chat_id).getD emptyEntry)
            c.last_message_at),
        skipped := st.skipped + 1 } :=
  process_chat_skip false now env st c
    ((skipCondition_iff false _ c.last_message_at).mpr ⟨rfl, h⟩)

/-- process_chat leaves every other chat's entry unchanged. -/
theorem process_chat_chats_other (force : Bool) (now : Nat) (env : RunEnv)
    (st : RunState) (chat : ActiveChat) (k : Nat) (hk : k ≠ chat.chat_id) :
    (process_chat force now env st chat).chats k = st.chats k := by
  cases hsc : skipCondition force ((st.chats chat.chat_id).getD emptyEntry)
      chat.last_message_at with
  | true =>
    rw [process_chat_skip force now env st chat hsc]
    exact setChat_other _ _ _ _ hk
  | false =>
    by_cases hctx : env.ctx chat.chat_id = []
    · rw [process_chat_placeholder force now env st chat hsc hctx]
      exact setChat_other _ _ _ _ hk
    · rw [process_chat_analyze force now env st chat hsc hctx]
      exact setChat_other _ _ _ _ hk

/-- The fold leaves entries of chats outside the processed list unchanged. -/
theorem foldl_chats_other (force : Bool) (now : Nat) (env : RunEnv) :
    ∀ (active : List ActiveChat) (st : RunState) (k : Nat),
      (∀ c ∈ active, c.chat_id ≠ k) →
      (active.foldl (process_chat force now env) st).chats k = st.chats k := by
  intro active
  induction active with
  | nil => intro st k _; rfl
  | cons c cs ih =>
    intro st k hk
    rw [List.foldl_cons,
      ih (process_chat force now env st c) k
        (fun c2 hc2 => hk c2 (List.mem_cons_of_mem c hc2))]
    exact process_chat_chats_other force now env st c k
      (hk c (List.mem_cons_self c cs)).symm

/-- The skip branch preserves every entry's last_analyzed_at. -/
theorem skip_preserves_last_analyzed (now : Nat) (env : RunEnv)
    (st : RunState) (c : ActiveChat) (hw : watermarked st c) (k : Nat) :
    (((process_chat false now env st c).chats k).getD
        emptyEntry).last_analyzed_at =
      ((st.chats k).getD emptyEntry).last_analyzed_at := by
  rw [process_chat_skip_of_watermarked now env st c hw]
  by_cases hk : k = c.chat_id
  · subst hk
    simp [setChat, skipEntry]
  · simp [setChat, hk]

/-- When every active chat is watermarked, a force-false fold analyzes
nothing, skips every chat and never calls the provider. -/
theorem foldl_skip_all_counts (now : Nat) (env : RunEnv) :
    ∀ (active : List ActiveChat) (st : RunState),
      (∀ c ∈ active, watermarked st c) →
      (active.foldl (process_chat false now env) st).analyzed = st.analyzed ∧
      (active.foldl (process_chat false now env) st).skipped =
        st.skipped + active.length ∧
      (active.foldl (process_chat false now env) st).llmCalls =
        st.llmCalls := by
  intro active
  induction active with
  | nil => intro st _; exact ⟨rfl, rfl, rfl⟩
  | cons c cs ih =>
    intro st h
    have hw := h c (List.mem_cons_self c cs)
    have hpres : ∀ c2 ∈ cs, watermarked (process_chat false now env st c) c2 := by
      intro c2 hc2
      obtain ⟨t, ht, hle⟩ := h c2 (List.mem_cons_of_mem c hc2)
      refine ⟨t, ?_, hle⟩
      rw [skip_preserves_last_analyzed now env st c hw]
      exact ht
    obtain ⟨ha, hs, hl⟩ := ih (process_chat false now env st c) hpres
    rw [List.foldl_cons]
    refine ⟨?_, ?_, ?_⟩
    · rw [ha, process_chat_skip_of_watermarked now env st c hw]
    · rw [hs, process_chat_skip_of_watermarked now env st c hw]
      show st.skipped + 1 + cs.length = st.skipped + (cs.length + 1)
      omega
    · rw [hl, process_chat_skip_of_watermarked now env st c hw]

/-- When every active chat is watermarked and the chat ids are distinct, a
force-false fold rewrites each active chat's entry to its skip-marked form
and touches nothing else. -/
theorem foldl_skip_all_entries (now : Nat) (env : RunEnv) :
    ∀ (active : List ActiveChat) (st : RunState),
      (∀ c ∈ active, watermarked st c) →
      (active.map ActiveChat.chat_id).Nodup →
      ∀ c ∈ active,
        (active.foldl (process_chat false now env) st).chats c.chat_id =
          some (skipEntry ((st.chats c.chat_id).getD emptyEntry)
            c.last_message_at) := by
  intro active
  induction active with
  | nil => intro st _ _ c hc; cases hc
  | cons c cs ih =>
    intro st h hnd c2 hc2
    have hw := h c (List.mem_cons_self c cs)
    have hpres : ∀ x ∈ cs, watermarked (process_chat false now env st c) x := by
      intro x hx
      obtain ⟨t, ht, hle⟩ := h x (List.mem_cons_of_mem c hx)
      refine ⟨t, ?_, hle⟩
      rw [skip_preserves_last_analyzed now env st c hw]
      exact ht
    have hnd2 : (∀ x ∈ cs, ¬ x.chat_id = c.chat_id) ∧
        (cs.map ActiveChat.chat_id).Nodup := by simpa using hnd
    have hne : ∀ x ∈ cs, x.chat_id ≠ c.chat_id := hnd2.1
    have hndtail : (cs.map ActiveChat.chat_id).Nodup := hnd2.2
    rw [List.foldl_cons]
    rcases List.mem_cons.mp hc2 with rfl | hc2tail
    · rw [foldl_chats_other false now env cs (process_chat false now env st c2)
        c2.chat_id hne]
      rw [process_chat_skip_of_watermarked now env st c2 hw]
      exact setChat_same _ _ _
    · rw [ih (process_chat false now env st c) hpres hndtail c2 hc2tail,
        process_chat_chats_other false now env st c c2.chat_id
          (hne c2 hc2tail)]

theorem watermark_of_skipCondition {force : Bool} {e : CacheEntry} {lma : Nat}
    (h : skipCondition force e lma = true) :
    ∃ t, e.last_analyzed_at = some t ∧ lma ≤ t :=
  ((skipCondition_iff force e lma).mp h).2

/-- After a run over chats with distinct ids whose activity predates the run
time, every active chat's entry exists, carries the chat's last_message_at
and a last_analyzed_at watermark at or past it. -/
theorem run_establishes_entry (force : Bool) (now : Nat) (env : RunEnv) :
    ∀ (active : List ActiveChat) (st : RunState),
      (active.map ActiveChat.chat_id).Nodup →
      (∀ c ∈ active, c.last_message_at ≤ now) →
      ∀ c ∈ active, ∃ e,
        (active.foldl (process_chat force now env) st).chats c.chat_id =
          some e ∧
        e.last_message_at = some c.last_message_at ∧
        ∃ t, e.last_analyzed_at = some t ∧ c.last_message_at ≤ t := by
  intro active
  induction active with
  | nil => intro st _ _ c hc; cases hc
  | cons c cs ih =>
    intro st hnd hlma c2 hc2
    have hnd2 : (∀ x ∈ cs, ¬ x.chat_id = c.chat_id) ∧
        (cs.map ActiveChat.chat_id).Nodup := by simpa using hnd
    rw [List.foldl_cons]
    rcases List.mem_cons.mp hc2 with rfl | hc2tail
    · rw [foldl_chats_other force now env cs (process_chat force now env st c2)
        c2.chat_id hnd2.1]
      cases hsc : skipCondition force ((st.chats c2.chat_id).getD emptyEntry)
          c2.last_message_at with
      | true =>
        rw [process_chat_skip force now env st c2 hsc]
        obtain ⟨t, ht, hle⟩ := watermark_of_skipCondition hsc
        exact ⟨_, setChat_same _ _ _, rfl, t, ht, hle⟩
      | false =>
        by_cases hctx : env.ctx c2.chat_id = []
        · rw [process_chat_placeholder force now env st c2 hsc hctx]
          exact ⟨_, setChat_same _ _ _, rfl, now, rfl,
            hlma c2 (List.mem_cons_self c2 cs)⟩
        · rw [process_chat_analyze force now env st c2 hsc hctx]
          exact ⟨_, setChat_same _ _ _, rfl, now, rfl,
            hlma c2 (List.mem_cons_self c2 cs)⟩
    · exact ih (process_chat force now env st c) hnd2.2
        (fun x hx => hlma x (List.mem_cons_of_mem c hx)) c2 hc2tail

/-- Claim C5 (amended) — idempotence up to bookkeeping.  Running
analyze_expectations with force = false immediately after a completed run
(same active chats with distinct ids, no new messages, message activity not
later than the first run's clock) analyzes zero conversations, skips all of
them, never calls the provider, and changes the cache document only in the
run timestamp, the stats block, and each active chat's entry having its
skipped flag set (its last_message_at is rewritten with the value it
already holds); every other entry is untouched. -/
theorem second_run_skips_everything (force1 : Bool) (now1 now2 : Nat)
    (env1 env2 : RunEnv) (cache0 : Cache) (active : List ActiveChat)
    (hnd : (active.map ActiveChat.chat_id).Nodup)
    (hlma : ∀ c ∈ active, c.last_message_at ≤ now1) :
    ∃ r1 r2,
      analyze_expectations true force1 false now1 env1 cache0 active none =
        Except.ok r1 ∧
      analyze_expectations true false false now2 env2 r1.cache active none =
        Except.ok r2 ∧
      r2.cache.stats = some ⟨active.length, 0, active.length⟩ ∧
      r2.llmCalls = 0 ∧
      r2.cache.updated_at = some now2 ∧
      r2.persisted = some r2.cache ∧
      (∀ c ∈ active, r2.cache.chats c.chat_id =
        some (skipEntry ((r1.cache.chats c.chat_id).getD emptyEntry)
          c.last_message_at)) ∧
      (∀ c ∈ active,
        ((r1.cache.chats c.chat_id).getD emptyEntry).last_message_at =
          some c.last_message_at) ∧
      (∀ k, (∀ c ∈ active, c.chat_id ≠ k) →
        r2.cache.chats k = r1.cache.chats k) := by
  have hestab := run_establishes_entry force1 now1 env1 active
    ⟨cache0.chats, 0, 0, 0⟩ hnd hlma
  have hwm : ∀ c ∈ active, watermarked
      ⟨(active.foldl (process_chat force1 now1 env1)
        ⟨cache0.chats, 0, 0, 0⟩).chats, 0, 0, 0⟩ c := by
    intro c hc
    obtain ⟨e, he, _, t, ht, hle⟩ := hestab c hc
    refine ⟨t, ?_, hle⟩
    show (((active.foldl (process_chat force1 now1 env1)
      ⟨cache0.chats, 0, 0, 0⟩).chats c.chat_id).getD
        emptyEntry).last_analyzed_at = some t
    rw [he]
    exact ht
  have hcounts := foldl_skip_all_counts now2 env2 active
    ⟨(active.foldl (process_chat force1 now1 env1)
      ⟨cache0.chats, 0, 0, 0⟩).chats, 0, 0, 0⟩ hwm
  refine ⟨runBody force1 false now1 env1 cache0 active none,
    runBody false false now2 env2
      (runBody force1 false now1 env1 cache0 active none).cache active none,
    rfl, rfl, ?_, ?_, rfl, rfl, ?_, ?_, ?_⟩
  · show some (⟨active.length,
        (active.foldl (process_chat false now2 env2)
          ⟨(active.foldl (process_chat force1 now1 env1)
            ⟨cache0.chats, 0, 0, 0⟩).chats, 0, 0, 0⟩).analyzed,
        (active.foldl (process_chat false now2 env2)
          ⟨(active.foldl (process_chat force1 now1 env1)
            ⟨cache0.chats, 0, 0, 0⟩).chats, 0, 0, 0⟩).skipped⟩ : Stats) =
      some ⟨active.length, 0, active.length⟩
    rw [hcounts.1, hcounts.2.1]
    simp
  · exact hcounts.2.2
  · intro c hc
    exact foldl_skip_all_entries now2 env2 active _ hwm hnd c hc
  · intro c hc
    obtain ⟨e, he, hlm, _⟩ := hestab c hc
    show ((( active.foldl (process_chat force1 now1 env1)
      ⟨cache0.chats, 0, 0, 0⟩).chats c.chat_id).getD
        emptyEntry).last_message_at = some c.last_message_at
    rw [he]
    exact hlm
  · intro k hk
    exact foldl_chats_other false now2 env2 active _ k hk

/-- First run of the idempotence counterexample: a fresh cache, one active
chat with a nonempty context. -/
def cexRun1 : RunResult := runBody false false 10 envC emptyCacheDoc [chatWitness] none

/-- Second run immediately after, force = false, no new messages. -/
def cexRun2 : RunResult := runBody false false 20 envC cexRun1.cache [chatWitness] none

/-- Counterexample to claim C5 as stated: the second run changes the cache
document beyond the run timestamp — the stats block flips from analyzed = 1
to skipped = 1, and the chat entry's skipped flag flips from false to
true. -/
theorem idempotence_counterexample :
    cexRun1.cache.stats = some ⟨1, 1, 0⟩ ∧
    cexRun2.cache.stats = some ⟨1, 0, 1⟩ ∧
    (cexRun1.cache.chats 1).map CacheEntry.skipped = some (some false) ∧
    (cexRun2.cache.chats 1).map CacheEntry.skipped = some (some true) :=
  ⟨rfl, rfl, rfl, rfl⟩

/-- Witness: the amended idempotence theorem applied to one concrete active
chat. -/
theorem second_run_witness :
    (([chatWitness].map ActiveChat.chat_id).Nodup ∧
      ∀ c ∈ [chatWitness], c.last_message_at ≤ 10) ∧
    ∃ r1 r2,
      analyze_expectations true false false 10 envC emptyCacheDoc
        [chatWitness] none = Except.ok r1 ∧
      analyze_expectations true false false 20 envC r1.cache
        [chatWitness] none = Except.ok r2 ∧
      r2.cache.stats = some ⟨1, 0, 1⟩ ∧ r2.llmCalls = 0 := by
  refine ⟨⟨by decide, by decide⟩, ?_⟩
  obtain ⟨r1, r2, h1, h2, h3, h4, -⟩ :=
    second_run_skips_everything false 10 20 envC envC emptyCacheDoc
      [chatWitness] (by decide) (by decide)
  exact ⟨r1, r2, h1, h2, h3, h4⟩

/-! ## Bounded concurrency (the asyncio.Semaphore dispatchers) -/

/-- The dispatcher of analyze_expectations abstracted to phase counts: its
per-chat tasks are symmetric, so the interleaving state is how many tasks
are awaiting their _fetch_context store query (which happens before
`async with semaphore`), how many are waiting to acquire the semaphore, how
many are inside it awaiting analyzer.analyze, and how many finished, plus
the number of free semaphore permits. -/
structure ExpDispatch where
  fetching : Nat
  waiting : Nat
  calling : Nat
  finished : Nat
  sem : Nat
  deriving DecidableEq, Repr

/-- A scheduler choice: a task completes its store query and reaches the
semaphore, a task acquires a free permit and starts its provider call, or a
task completes its call and releases its permit. -/
inductive DStep where
  | reachSem
  | acquire
  | release
  deriving DecidableEq, Repr

/-- One interleaving step of the expectations dispatcher. -/
def expStep (st : ExpDispatch) : DStep → ExpDispatch
  | .reachSem =>
    if 0 < st.fetching then
      { st with fetching := st.fetching - 1, waiting := st.waiting + 1 }
    else st
  | .acquire =>
    if 0 < st.waiting ∧ 0 < st.sem then
      ⟨st.fetching, st.waiting - 1, st.calling + 1, st.finished, st.sem - 1⟩
    else st
  | .release =>
    if 0 < st.calling then
      ⟨st.fetching, st.waiting, st.calling - 1, st.finished + 1, st.sem + 1⟩
    else st

/-- The asyncio.gather start state: all n tasks have been scheduled and are
awaiting their store queries; all conc permits are free. -/
def expDispatchInit (n conc : Nat) : ExpDispatch := ⟨n, 0, 0, 0, conc⟩

/-- The dispatcher state after an arbitrary scheduler interleaving. -/
def expRun (n conc : Nat) (trace : List DStep) : ExpDispatch :=
  trace.foldl expStep (expDispatchInit n conc)

/-- Tasks in flight: scheduled and not yet finished, including those
performing their store queries. -/
def inFlight (st : ExpDispatch) : Nat := st.fetching + st.waiting + st.calling

theorem expStep_preserves_permits (st : ExpDispatch) (d : DStep) (conc : Nat)
    (h : st.sem + st.calling = conc) :
    (expStep st d).sem + (expStep st d).calling = conc := by
  cases d with
  | reachSem =>
    by_cases hc : 0 < st.fetching <;> simp [expStep, hc] <;> omega
  | acquire =>
    by_cases hc : 0 < st.waiting ∧ 0 < st.sem <;> simp [expStep, hc] <;> omega
  | release =>
    by_cases hc : 0 < st.calling <;> simp [expStep, hc] <;> omega

theorem foldl_expStep_permits (conc : Nat) :
    ∀ (trace : List DStep) (st : ExpDispatch),
      st.sem + st.calling = conc →
      ((trace.foldl expStep st).sem + (trace.foldl expStep st).calling =
        conc) := by
  intro trace
  induction trace with
  | nil => intro st h; exact h
  | cons d ds ih =>
    intro st h
    rw [List.foldl_cons]
    exact ih (expStep st d) (expStep_preserves_permits st d conc h)

/-- The dispatcher of scripts/analyze_messages.py abstracted the same way:
there the whole task body — the duplicate-check store query, the
classification call and the save — runs inside `async with semaphore`, so a
task is either pending, working inside the semaphore, or finished. -/
structure MsgDispatch where
  pending : Nat
  working : Nat
  finished : Nat
  sem : Nat
  deriving DecidableEq, Repr

/-- A scheduler choice for the message dispatcher. -/
inductive MStep where
  | acquire
  | release
  deriving DecidableEq, Repr

/-- One interleaving step of the message dispatcher. -/
def msgStep (st : MsgDispatch) : MStep → MsgDispatch
  | .acquire =>
    if 0 < st.pending ∧ 0 < st.sem then
      ⟨st.pending - 1, st.working + 1, st.finished, st.sem - 1⟩
    else st
  | .release =>
    if 0 < st.working then
      ⟨st.pending, st.working - 1, st.finished + 1, st.sem + 1⟩
    else st

/-- The message dispatcher state after an arbitrary interleaving, from n
pending tasks and conc free permits. -/
def msgRun (n conc : Nat) (trace : List MStep) : MsgDispatch :=
  trace.foldl msgStep ⟨n, 0, 0, conc⟩

theorem msgStep_preserves_permits (st : MsgDispatch) (d : MStep) (conc : Nat)
    (h : st.sem + st.working = conc) :
    (msgStep st d).sem + (msgStep st d).working = conc := by
  cases d with
  | acquire =>
    by_cases hc : 0 < st.pending ∧ 0 < st.sem <;> simp [msgStep, hc] <;> omega
  | release =>
    by_cases hc : 0 < st.working <;> simp [msgStep, hc] <;> omega

theorem foldl_msgStep_permits (conc : Nat) :
    ∀ (trace : List MStep) (st : MsgDispatch),
      st.sem + st.working = conc →
      ((trace.foldl msgStep st).sem + (trace.foldl msgStep st).working =
        conc) := by
  intro trace
  induction trace with
  | nil => intro st h; exact h
  | cons d ds ih =>
    intro st h
    rw [List.foldl_cons]
    exact ih (msgStep st d) (msgStep_preserves_permits st d conc h)

/-- Every processed chat lands in exactly one of the analyzed / skipped
counters: one run task, one count. -/
theorem process_chat_total (force : Bool) (now : Nat) (env : RunEnv)
    (st : RunState) (chat : ActiveChat) :
    (process_chat force now env st chat).analyzed +
      (process_chat force now env st chat).skipped =
      st.analyzed + st.skipped + 1 := by
  cases hsc : skipCondition force ((st.chats chat.chat_id).getD emptyEntry)
      chat.last_message_at with
  | true =>
    rw [process_chat_skip force now env st chat hsc]
    show st.analyzed + (st.skipped + 1) = st.analyzed + st.skipped + 1
    omega
  | false =>
    by_cases hctx : env.ctx chat.chat_id = []
    · rw [process_chat_placeholder force now env st chat hsc hctx]
      show st.analyzed + 1 + st.skipped = st.analyzed + st.skipped + 1
      omega
    · rw [process_chat_analyze force now env st chat hsc hctx]
      show st.analyzed + 1 + st.skipped = st.analyzed + st.skipped + 1
      omega

/-- The fold over the task list completes every task, each counted exactly
once: the final analyzed + skipped counters sum to the task count. -/
theorem foldl_counts_total (force : Bool) (now : Nat) (env : RunEnv) :
    ∀ (active : List ActiveChat) (st : RunState),
      (active.foldl (process_chat force now env) st).analyzed +
        (active.foldl (process_chat force now env) st).skipped =
        st.analyzed + st.skipped + active.length := by
  intro active
  induction active with
  | nil => intro st; rfl
  | cons c cs ih =>
    intro st
    rw [List.foldl_cons]
    have h1 := ih (process_chat force now env st c)
    have h2 := process_chat_total force now env st c
    rw [h1]
    rw [List.length_cons]
    omega

/-- Conservation of tasks in the expectations dispatcher: no interleaving
creates or loses a task. -/
theorem expStep_preserves_tasks (st : ExpDispatch) (d : DStep) :
    inFlight (expStep st d) + (expStep st d).finished =
      inFlight st + st.finished := by
  cases d with
  | reachSem =>
    by_cases hc : 0 < st.fetching <;> simp [expStep, inFlight, hc] <;> omega
  | acquire =>
    by_cases hc : 0 < st.waiting ∧ 0 < st.sem <;>
      simp [expStep, inFlight, hc] <;> omega
  | release =>
    by_cases hc : 0 < st.calling <;> simp [expStep, inFlight, hc] <;> omega

theorem foldl_expStep_tasks :
    ∀ (trace : List DStep) (st : ExpDispatch),
      inFlight (trace.foldl expStep st) + (trace.foldl expStep st).finished =
        inFlight st + st.finished := by
  intro trace
  induction trace with
  | nil => intro st; rfl
  | cons d ds ih =>
    intro st
    rw [List.foldl_cons, ih (expStep st d), expStep_preserves_tasks st d]

/-- Conservation of tasks in the message dispatcher. -/
theorem msgStep_preserves_tasks (st : MsgDispatch) (d : MStep) :
    (msgStep st d).pending + (msgStep st d).working +
        (msgStep st d).finished =
      st.pending + st.working + st.finished := by
  cases d with
  | acquire =>
    by_cases hc : 0 < st.pending ∧ 0 < st.sem <;> simp [msgStep, hc] <;> omega
  | release =>
    by_cases hc : 0 < st.working <;> simp [msgStep, hc] <;> omega

theorem foldl_msgStep_tasks :
    ∀ (trace : List MStep) (st : MsgDispatch),
      (trace.foldl msgStep st).pending + (trace.foldl msgStep st).working +
          (trace.foldl msgStep st).finished =
        st.pending + st.working + st.finished := by
  intro trace
  induction trace with
  | nil => intro st; rfl
  | cons d ds ih =>
    intro st
    rw [List.foldl_cons, ih (msgStep st d), msgStep_preserves_tasks st d]

/-- A schedule that drives the expectations dispatcher's tasks to completion
one after another: each task finishes its store query, acquires the one
needed permit, calls, and releases. -/
def expDrainTrace : Nat → List DStep
  | 0 => []
  | n + 1 => DStep.reachSem :: DStep.acquire :: DStep.release :: expDrainTrace n

/-- The corresponding completing schedule for the message dispatcher. -/
def msgDrainTrace : Nat → List MStep
  | 0 => []
  | n + 1 => MStep.acquire :: MStep.release :: msgDrainTrace n

theorem expDrain_spec :
    ∀ (n f conc : Nat), 1 ≤ conc →
      (expDrainTrace n).foldl expStep ⟨n, 0, 0, f, conc⟩ =
        ⟨0, 0, 0, f + n, conc⟩ := by
  intro n
  induction n with
  | zero => intro f conc _; simp [expDrainTrace]
  | succ n ih =>
    intro f conc h
    have hc : 0 < conc := h
    have h1 : expStep ⟨n + 1, 0, 0, f, conc⟩ DStep.reachSem =
        ⟨n, 1, 0, f, conc⟩ := by simp [expStep]
    have h2 : expStep ⟨n, 1, 0, f, conc⟩ DStep.acquire =
        ⟨n, 0, 1, f, conc - 1⟩ := by simp [expStep, hc]
    have h3 : expStep ⟨n, 0, 1, f, conc - 1⟩ DStep.release =
        ⟨n, 0, 0, f + 1, conc⟩ := by
      have hsub : conc - 1 + 1 = conc := by omega
      simp [expStep, hsub]
    rw [expDrainTrace, List.foldl_cons, h1, List.foldl_cons, h2,
      List.foldl_cons, h3, ih (f + 1) conc h]
    have heq : f + 1 + n = f + (n + 1) := by omega
    rw [heq]

theorem msgDrain_spec :
    ∀ (n f conc : Nat), 1 ≤ conc →
      (msgDrainTrace n).foldl msgStep ⟨n, 0, f, conc⟩ =
        ⟨0, 0, f + n, conc⟩ := by
  intro n
  induction n with
  | zero => intro f conc _; simp [msgDrainTrace]
  | succ n ih =>
    intro f conc h
    have hc : 0 < conc := h
    have h1 : msgStep ⟨n + 1, 0, f, conc⟩ MStep.acquire =
        ⟨n, 1, f, conc - 1⟩ := by simp [msgStep, hc]
    have h2 : msgStep ⟨n, 1, f, conc - 1⟩ MStep.release =
        ⟨n, 0, f + 1, conc⟩ := by
      have hsub : conc - 1 + 1 = conc := by omega
      simp [msgStep, hsub]
    rw [msgDrainTrace, List.foldl_cons, h1, List.foldl_cons, h2,
      ih (f + 1) conc h]
    have heq : f + 1 + n = f + (n + 1) := by omega
    rw [heq]

/-- Claim C9 (amended) — bounded concurrency, completion and aggregation.
Under every scheduler interleaving, at most conc tasks are simultaneously
inside the semaphore-guarded section: for the expectations dispatcher that
section is only the external classification call, and for the
message-analysis script it is the whole task body including its store
queries (the expectations dispatcher's _fetch_context store queries run
before acquisition and are not bounded — see the counterexample).  The
dispatcher returns only once all tasks have completed: in every reachable
state of either dispatcher, in-flight plus finished tasks equal the
scheduled task count, so the gather's return condition (all tasks finished)
holds exactly when no task is still in flight, and with at least one permit
a schedule completing all tasks exists; on return the run aggregates the
analyzed and skipped counters into the stats block and their sum is exactly
the number of scheduled tasks (the code maintains no separate failed
counter; per-item provider failures are degraded into results before
reaching the counters). -/
theorem dispatcher_bound_and_completion (n conc : Nat) :
    (∀ trace : List DStep, (expRun n conc trace).calling ≤ conc) ∧
    (∀ trace : List MStep, (msgRun n conc trace).working ≤ conc) ∧
    (∀ trace : List DStep,
      inFlight (expRun n conc trace) + (expRun n conc trace).finished = n) ∧
    (∀ trace : List MStep,
      (msgRun n conc trace).pending + (msgRun n conc trace).working +
        (msgRun n conc trace).finished = n) ∧
    (1 ≤ conc → expRun n conc (expDrainTrace n) = ⟨0, 0, 0, n, conc⟩) ∧
    (1 ≤ conc → msgRun n conc (msgDrainTrace n) = ⟨0, 0, n, conc⟩) ∧
    (∀ (force dry_run : Bool) (now : Nat) (env : RunEnv) (cache0 : Cache)
      (active : List ActiveChat), ∃ a s,
        (runBody force dry_run now env cache0 active none).cache.stats =
          some ⟨active.length, a, s⟩ ∧ a + s = active.length) := by
  refine ⟨?_, ?_, ?_, ?_, ?_, ?_, ?_⟩
  · intro trace
    have := foldl_expStep_permits conc trace (expDispatchInit n conc) rfl
    unfold expRun
    omega
  · intro trace
    have := foldl_msgStep_permits conc trace ⟨n, 0, 0, conc⟩ rfl
    unfold msgRun
    omega
  · intro trace
    have := foldl_expStep_tasks trace (expDispatchInit n conc)
    unfold expRun
    rw [this]
    rfl
  · intro trace
    have := foldl_msgStep_tasks trace ⟨n, 0, 0, conc⟩
    unfold msgRun
    rw [this]
    rfl
  · intro h
    have := expDrain_spec n 0 conc h
    unfold expRun expDispatchInit
    rw [this, Nat.zero_add]
  · intro h
    have := msgDrain_spec n 0 conc h
    unfold msgRun
    rw [this, Nat.zero_add]
  · intro force dry_run now env cache0 active
    have htot : (active.foldl (process_chat force now env)
          ⟨cache0.chats, 0, 0, 0⟩).analyzed +
        (active.foldl (process_chat force now env)
          ⟨cache0.chats, 0, 0, 0⟩).skipped = 0 + 0 + active.length :=
      foldl_counts_total force now env active ⟨cache0.chats, 0, 0, 0⟩
    exact ⟨(active.foldl (process_chat force now env)
        ⟨cache0.chats, 0, 0, 0⟩).analyzed,
      (active.foldl (process_chat force now env)
        ⟨cache0.chats, 0, 0, 0⟩).skipped, rfl, by omega⟩

/-- Witness: a positive permit count, under which the drain schedule
completes two expectations tasks. -/
theorem dispatcher_completion_witness :
    (1 ≤ 1) ∧ expRun 2 1 (expDrainTrace 2) = ⟨0, 0, 0, 2, 1⟩ :=
  ⟨by decide, (dispatcher_bound_and_completion 2 1).2.2.2.2.1 (by decide)⟩

/-- Counterexample to claim C9 as stated: in the expectations dispatcher,
at the reachable state where all 50 scheduled tasks are performing their
store queries, 50 tasks are simultaneously in flight including store
queries, exceeding the concurrency bound 3 — the semaphore only guards the
provider call. -/
theorem concurrency_counterexample :
    inFlight (expRun 50 3 []) = 50 ∧ 3 < 50 ∧ (expRun 50 3 []).calling = 0 := by
  refine ⟨rfl, by omega, rfl⟩

end CvgorodHub
